import Mathlib

/-!
Verification development for the SEO blog creation pipeline
(`src/main.py`).  Strings are modelled as `List Char`; Python floats are
modelled as exact rationals (`ℚ`); Python exceptions (IndexError,
ZeroDivisionError) are modelled by `Option` results.  Every definition
follows the corresponding Python function; the source line is named in
each doc comment.
-/

/-- Convert a string literal to the character-list representation used by
every model function. -/
def s2l (s : String) : List Char := s.data

/-- Whitespace test used to model Python `str.split()` (split on runs of
whitespace, dropping empties). -/
def isWs (c : Char) : Bool := c == ' ' || c == '\t' || c == '\n' || c == '\r'

/-- The 26 uppercase/lowercase ASCII letter pairs; Python `str.lower()` maps
the first component to the second (the model covers the ASCII range, which is
the only range the pipeline's own template text exercises). -/
def lowerPairs : List (Char × Char) :=
  [('A','a'), ('B','b'), ('C','c'), ('D','d'), ('E','e'), ('F','f'), ('G','g'),
   ('H','h'), ('I','i'), ('J','j'), ('K','k'), ('L','l'), ('M','m'), ('N','n'),
   ('O','o'), ('P','p'), ('Q','q'), ('R','r'), ('S','s'), ('T','t'), ('U','u'),
   ('V','v'), ('W','w'), ('X','x'), ('Y','y'), ('Z','z')]

/-- Lowercase one character (ASCII model of Python case folding). -/
def pyLower (c : Char) : Char :=
  ((lowerPairs.find? (fun p => p.1 == c)).map Prod.snd).getD c

/-- Uppercase one character (ASCII model of Python case folding). -/
def pyUpper (c : Char) : Char :=
  ((lowerPairs.find? (fun p => p.2 == c)).map Prod.fst).getD c

/-- Model of Python `str.lower()`: lowercase every character. -/
def lowerStr (l : List Char) : List Char := l.map pyLower

/-- State machine for Python `str.title()`: a letter is uppercased when the
previous character was not a letter, lowercased otherwise. -/
def titleCaseGo : Bool → List Char → List Char
  | _, [] => []
  | prevAlpha, c :: rest =>
    (if c.isAlpha then (if prevAlpha then pyLower c else pyUpper c) else c) ::
      titleCaseGo c.isAlpha rest

/-- Model of Python `str.title()` used by `_generate_headline`
(`main.py:90-92`). -/
def titleCase (l : List Char) : List Char := titleCaseGo false l

/-- Whether the first list is a prefix of the second (Boolean, by direct
scan); the building block for Python substring search. -/
def isPref : List Char → List Char → Bool
  | [], _ => true
  | _ :: _, [] => false
  | a :: as, b :: bs => a == b && isPref as bs

/-- Model of Python `sub in s` substring membership. -/
def containsSub (sub : List Char) : List Char → Bool
  | [] => isPref sub []
  | c :: t => isPref sub (c :: t) || containsSub sub t

/-- Accumulator pass for `splitWs`: `cur` holds the reversed current word. -/
def splitWsAux : List Char → List Char → List (List Char)
  | cur, [] => if cur.isEmpty then [] else [cur.reverse]
  | cur, c :: rest =>
    if isWs c then
      (if cur.isEmpty then splitWsAux [] rest
       else cur.reverse :: splitWsAux [] rest)
    else splitWsAux (c :: cur) rest

/-- Model of Python `str.split()` with no argument: maximal runs of
non-whitespace characters, empties dropped. -/
def splitWs (l : List Char) : List (List Char) := splitWsAux [] l

/-- Lowercase ASCII alphanumeric test, the character class `[a-z0-9]` of the
slug regex (`main.py:481`). -/
def isLowerAlnum (c : Char) : Bool :=
  (('a' ≤ c) && (c ≤ 'z')) || (('0' ≤ c) && (c ≤ '9'))

/-- One pass of `re.sub(r'[^a-z0-9]+', '-', slug)` (`main.py:481`): each
maximal run of characters outside `[a-z0-9]` becomes a single hyphen.
`inRun` records whether the previous character was part of such a run. -/
def replRuns : Bool → List Char → List Char
  | _, [] => []
  | inRun, c :: rest =>
    if isLowerAlnum c then c :: replRuns false rest
    else if inRun then replRuns true rest
    else '-' :: replRuns true rest

/-- Model of Python `str.strip('-')` (`main.py:482`): drop leading and
trailing hyphens. -/
def stripHyphens (l : List Char) : List Char :=
  (((l.dropWhile (fun c => c == '-')).reverse.dropWhile
      (fun c => c == '-'))).reverse

/-- `_generate_slug` (`main.py:478-483`): lowercase the title, collapse runs
of non-alphanumerics to single hyphens, strip edge hyphens, then truncate to
60 characters. -/
def generate_slug (title : List Char) : List Char :=
  (stripHyphens (replRuns false (lowerStr title))).take 60

/-- Uncapped volume estimate: the sum `_estimate_search_volume`
(`main.py:323-335`) feeds into its `min(·, 100)` cap. -/
def volumeBase (keyword : List Char) : Int :=
  50 + (if containsSub (s2l "best") keyword || containsSub (s2l "top") keyword
        then 20 else 0)
     + (if containsSub (s2l "2025") keyword || containsSub (s2l "new") keyword
        then 15 else 0)
     + (if (splitWs keyword).length == 2 then 10 else 0)

/-- `_estimate_search_volume` (`main.py:323-335`). -/
def estimate_search_volume (keyword : List Char) : Int :=
  min (volumeBase keyword) 100

/-- Uncapped difficulty estimate: the sum `_estimate_difficulty`
(`main.py:337-348`) feeds into its `min(·, 100)` cap. -/
def difficultyBase (keyword : List Char) : Int :=
  40 + (if (splitWs keyword).length == 1 then 30
        else if (splitWs keyword).length == 2 then 10 else 0)

/-- `_estimate_difficulty` (`main.py:337-348`). -/
def estimate_difficulty (keyword : List Char) : Int :=
  min (difficultyBase keyword) 100

/-- Uncapped relevance: the sum `_calculate_relevance` (`main.py:350-358`)
feeds into its `min(·, 100)` cap. -/
def relevanceBase (keyword : List Char) : Int :=
  70 + (if 3 ≤ (splitWs keyword).length then 20 else 0)

/-- `_calculate_relevance` (`main.py:350-358`); the code passes
`word_count = len(kw.split())`. -/
def calculate_relevance (keyword : List Char) : Int :=
  min (relevanceBase keyword) 100

/-- Round a rational to 2 decimal places, the model of Python
`round(x, 2)` on the exact values arising here. -/
def round2 (x : ℚ) : ℚ := (round (x * 100) : ℤ) / 100

/-- Round a rational to 1 decimal place, the model of Python
`round(x, 1)` on the exact values arising here. -/
def round1 (x : ℚ) : ℚ := (round (x * 10) : ℤ) / 10

/-- The combined SEO score of one keyword before rounding
(`main.py:308-310`): `volume*0.4 + (100-difficulty)*0.3 + relevance*0.3`. -/
def combinedRaw (keyword : List Char) : ℚ :=
  (estimate_search_volume keyword : ℚ) * (4/10)
    + ((100 : ℚ) - (estimate_difficulty keyword : ℚ)) * (3/10)
    + (calculate_relevance keyword : ℚ) * (3/10)

/-- One analyzed keyword record, the fields of the dict built by
`_analyze_keywords` (`main.py:312-319`) that the ranking uses. -/
structure AnalyzedKw where
  keyword : List Char
  seo_score : ℚ
  deriving Repr, DecidableEq

/-- `_analyze_keywords` (`main.py:293-321`): score each keyword in order,
`seo_score = round(combined, 2)`. -/
def analyze_keywords (keywords : List (List Char)) : List AnalyzedKw :=
  keywords.map (fun kw => { keyword := kw, seo_score := round2 (combinedRaw kw) })

/-- Insert one record into a descending-ordered list, after every record of
greater-or-equal score: the characteristic step of a stable descending sort. -/
def insertKw : List AnalyzedKw → AnalyzedKw → List AnalyzedKw
  | [], x => [x]
  | y :: ys, x => if y.seo_score < x.seo_score then x :: y :: ys
                  else y :: insertKw ys x

/-- Stable sort by `seo_score` descending, the model of Python
`sorted(..., key=lambda x: x['seo_score'], reverse=True)` (`main.py:240-244`);
CPython's sort is documented stable, and a stable descending sort is
extensionally unique, so insertion sort is a faithful model. -/
def sortKw (l : List AnalyzedKw) : List AnalyzedKw := l.foldl insertKw []

/-- Number of keywords found case-insensitively in the content
(`main.py:406`). -/
def keywordsFound (content : List Char) (keywords : List (List Char)) : Nat :=
  (keywords.filter
    (fun kw => containsSub (lowerStr kw) (lowerStr content))).length

/-- Word-count bonus of the SEO score (`main.py:409-414`). -/
def lengthBonus (wc : Nat) : ℚ :=
  if 150 ≤ wc ∧ wc ≤ 200 then 20 else if 140 ≤ wc ∧ wc ≤ 210 then 15 else 0

/-- The SEO score computed from its four factors (`main.py:400-425`):
`min(int(score), 100)` where `score` is the rational sum; `int()` truncates,
which on this nonnegative sum is the floor. -/
def seoScoreCore (found total wc : Nat) (heading cta : Bool) : Int :=
  min ⌊((found : ℚ) / (total : ℚ)) * 40 + lengthBonus wc
        + (if heading then (20 : ℚ) else 0)
        + (if cta then (20 : ℚ) else 0)⌋ 100

/-- The fixed call-to-action word list (`main.py:421`). -/
def ctaWords : List (List Char) :=
  [s2l "discover", s2l "check", s2l "buy", s2l "shop", s2l "get",
   s2l "try", s2l "order"]

/-- Whether the lowered content contains a call-to-action word
(`main.py:421-423`). -/
def hasCta (content : List Char) : Bool :=
  ctaWords.any (fun w => containsSub w (lowerStr content))

/-- Whether the content starts with a heading marker (`main.py:417`,
`content.startswith('#')`). -/
def startsHash (content : List Char) : Bool :=
  match content with
  | '#' :: _ => true
  | _ => false

/-- `_calculate_blog_seo_score` (`main.py:400-425`).  The keyword-coverage
term divides by `len(keywords)`; with an empty keyword list Python raises
ZeroDivisionError, modelled as `none`. -/
def calculate_blog_seo_score (content : List Char)
    (keywords : List (List Char)) : Option Int :=
  if keywords.length = 0 then none
  else some (seoScoreCore (keywordsFound content keywords) keywords.length
    (splitWs content).length (startsHash content) (hasCta content))

/-- `_count_syllables` (`main.py:440-458`): count transitions into a vowel
(`aeiouy`), subtract one for a trailing `e`, floor at one. -/
def count_syllables (word : List Char) : Int :=
  let w := lowerStr word
  let isVowel := fun c => (s2l "aeiouy").contains c
  let count := (Prod.fst (w.foldl
    (fun (st : Int × Bool) c =>
      let isV := isVowel c
      (if isV && !st.2 then st.1 + 1 else st.1, isV)) (0, false)))
  let count := if w.getLast? == some 'e' then count - 1 else count
  if count = 0 then 1 else count

/-- `_calculate_readability` (`main.py:427-438`): simplified Flesch reading
ease over exact rationals, clamped to `[0,100]` and rounded to one decimal;
`50.0` when there is no sentence or no word. -/
def calculate_readability (content : List Char) : ℚ :=
  let sentences := content.count '.' + content.count '!' + content.count '?'
  let words := (splitWs content).length
  let syllables := ((splitWs content).map count_syllables).sum
  if sentences = 0 ∨ words = 0 then 50
  else round1 (max 0 (min 100
    ((206835 : ℚ)/1000 - (1015 : ℚ)/1000 * ((words : ℚ) / (sentences : ℚ))
      - (846 : ℚ)/10 * ((syllables : ℚ) / (words : ℚ)))))

/-- Average SEO score over all generated posts (`main.py:682`):
`sum(...) / len(self.blog_posts)` with no guard, so an empty post list
raises ZeroDivisionError, modelled as `none`. -/
def avg_seo_score (scores : List ℚ) : Option ℚ :=
  if scores.length = 0 then none else some (scores.sum / scores.length)

/-- Average readability over all generated posts (`main.py:683`), same
unguarded division. -/
def avg_readability (scores : List ℚ) : Option ℚ :=
  if scores.length = 0 then none else some (scores.sum / scores.length)

/-- Average words per post (`main.py:636`): this one is guarded with
`max(blogs_generated, 1)` and never fails. -/
def avgWordsPerPost (totalWords blogsGenerated : Nat) : Nat :=
  totalWords / max blogsGenerated 1

/-- A product record, the fields of the product dict that the content
templater reads (`main.py:70-74`). -/
structure Product where
  title : List Char
  price : List Char
  rating : List Char
  reviews : List Char
  category : List Char
  description : List Char
  deriving Repr, DecidableEq

/-- `_generate_headline` (`main.py:87-94`), with the value of Python
`hash(product_name)` taken as the parameter `hv`: CPython salts `hash` on a
`str` per process, so the selected index `hv % 3` is not a function of the
product title alone. -/
def generate_headline (hv : Nat) (product_name main_keyword : List Char) :
    List Char :=
  [s2l "# " ++ titleCase main_keyword ++ s2l ": Why " ++ product_name
     ++ s2l " is Taking Over",
   s2l "# " ++ product_name ++ s2l " Review: The Ultimate "
     ++ titleCase main_keyword,
   s2l "# Discover the " ++ titleCase main_keyword
     ++ s2l " Everyone\'s Talking About"].getD (hv % 3) []

/-- `_generate_intro` (`main.py:96-106`); the template list is built eagerly,
so `keywords[1]` is read whichever variant `hv % 3` selects. -/
def generate_intro (hv : Nat) (p : Product) (k0 k1 : List Char) : List Char :=
  [s2l "In the world of " ++ lowerStr p.category
     ++ s2l ", finding the perfect " ++ k0
     ++ s2l " can feel overwhelming. Enter the " ++ p.title
     ++ s2l " – a game-changer that\'s earned an impressive " ++ p.rating
     ++ s2l "-star rating from over " ++ p.reviews
     ++ s2l " satisfied customers.",
   s2l "Looking for " ++ k0 ++ s2l "? The " ++ p.title
     ++ s2l " has quickly become the go-to choice for savvy shoppers. With "
     ++ p.reviews ++ s2l " glowing reviews and a stellar " ++ p.rating
     ++ s2l "-star rating, it\'s clear why this " ++ k1
     ++ s2l " stands out.",
   s2l "When it comes to " ++ k0 ++ s2l ", the " ++ p.title
     ++ s2l " sets a new standard. This top-rated " ++ lowerStr p.category
     ++ s2l " item has captured the attention of " ++ p.reviews
     ++ s2l " buyers who\'ve given it an outstanding " ++ p.rating
     ++ s2l "-star rating."].getD (hv % 3) []

/-- `_generate_body` (`main.py:108-126`): two parts joined by a single
space. -/
def generate_body (p : Product) (k1 k2 k3 : List Char) : List Char :=
  (s2l "What makes this " ++ k1 ++ s2l " special? " ++ p.description
    ++ s2l " At just " ++ p.price
    ++ s2l ", it delivers exceptional value that\'s hard to match.")
  ++ s2l " "
  ++ (s2l "Whether you\'re a first-time buyer or an experienced user looking for "
    ++ k2
    ++ s2l ", this product consistently exceeds expectations. The combination of quality, performance, and affordability makes it the "
    ++ k3 ++ s2l " for anyone serious about their " ++ lowerStr p.category
    ++ s2l " needs.")

/-- `_generate_cta` (`main.py:128-138`), hash value as parameter as in
`generate_headline`. -/
def generate_cta (hv : Nat) (product_name keyword : List Char) : List Char :=
  [s2l "Ready to experience the difference? Discover why the " ++ product_name
     ++ s2l " is the " ++ keyword
     ++ s2l " of choice for thousands of satisfied customers. Check it out today!",
   s2l "Don\'t miss out on this exceptional " ++ keyword
     ++ s2l ". Join the community of happy " ++ product_name
     ++ s2l " users and see what all the excitement is about!",
   s2l "Transform your experience with the " ++ product_name
     ++ s2l ". As the leading " ++ keyword
     ++ s2l ", it\'s time to see why everyone\'s making the switch!"].getD
    (hv % 3) []

/-- `_generate_structured_content` (`main.py:64-85`): headline, intro, body
and call-to-action joined by blank lines.  The sections index
`keywords[0] .. keywords[3]`; a list with fewer than 4 entries raises
IndexError in Python, modelled as `none`. -/
def generate_structured_content (hv : Nat) (p : Product)
    (keywords : List (List Char)) : Option (List Char) :=
  match keywords.get? 0, keywords.get? 1, keywords.get? 2,
        keywords.get? 3 with
  | some k0, some k1, some k2, some k3 =>
    some (generate_headline hv p.title k0 ++ s2l "\n\n"
      ++ generate_intro hv p k0 k1 ++ s2l "\n\n"
      ++ generate_body p k1 k2 k3 ++ s2l "\n\n"
      ++ generate_cta hv p.title k0)
  | _, _, _, _ => none

/-- Word-run character class of the regex `\b[a-zA-Z]{4,}\b`
(`main.py:228`): the matches are exactly the maximal word-character runs
that consist of letters only and have length at least 4. -/
def wordChar (c : Char) : Bool := c.isAlphanum || c == '_'

/-- Split into maximal runs of characters satisfying `p`; `cur` holds the
reversed current run. -/
def splitRunsAux (p : Char → Bool) : List Char → List Char → List (List Char)
  | cur, [] => if cur.isEmpty then [] else [cur.reverse]
  | cur, c :: rest =>
    if p c then splitRunsAux p (c :: cur) rest
    else if cur.isEmpty then splitRunsAux p [] rest
    else cur.reverse :: splitRunsAux p [] rest

/-- `re.findall(r'\b[a-zA-Z]{4,}\b', product['title'].lower())`
(`main.py:228`). -/
def find_title_words (title : List Char) : List (List Char) :=
  (splitRunsAux wordChar [] (lowerStr title)).filter
    (fun r => r.all Char.isAlpha && 4 ≤ r.length)

/-- The modifier dictionary of `_generate_keyword_variations`
(`main.py:262-267`) in its (insertion-ordered) iteration order. -/
def modifierClasses : List (List (List Char)) :=
  [[s2l "best", s2l "top", s2l "guide", s2l "review", s2l "comparison"],
   [s2l "buy", s2l "affordable", s2l "cheap", s2l "deals", s2l "discount"],
   [s2l "price", s2l "sale", s2l "order", s2l "shop"],
   [s2l "2025", s2l "new", s2l "latest", s2l "trending"]]

/-- Add an element to the variation collection unless already present.  The
Python code collects variations in a `set`, whose iteration order for
strings is unspecified; the model keeps first-insertion order as a
representative ordering (no settled claim depends on this order). -/
def addUnique (l : List (List Char)) (x : List Char) : List (List Char) :=
  if l.contains x then l else l ++ [x]

/-- The per-term additions of `_generate_keyword_variations`
(`main.py:273-284`): the bare term, two modifiers per intent class on both
sides, and the category-qualified form. -/
def variationsPerTerm (category : List Char) (acc : List (List Char))
    (term : List Char) : List (List Char) :=
  let acc := addUnique acc term
  let acc := modifierClasses.foldl (fun acc mods =>
    (mods.take 2).foldl (fun acc m =>
      addUnique (addUnique acc (m ++ ' ' :: term)) (term ++ ' ' :: m)) acc) acc
  addUnique acc (term ++ ' ' :: lowerStr category)

/-- `_generate_keyword_variations` (`main.py:255-291`). -/
def generate_keyword_variations (base_terms : List (List Char))
    (category : List Char) : List (List Char) :=
  let core_terms := (base_terms.filter (fun t => 4 < t.length)).take 3
  let acc := core_terms.foldl (variationsPerTerm category) []
  if 2 ≤ core_terms.length then
    addUnique
      (addUnique acc (core_terms.getD 0 [] ++ ' ' :: core_terms.getD 1 []))
      (s2l "best " ++ core_terms.getD 0 [] ++ ' ' :: core_terms.getD 1 [])
  else acc

/-- `research_seo_keywords` (`main.py:221-253`): extract title words,
generate variations, score them, and keep the top 4 by `seo_score`
descending. -/
def research_seo_keywords (title category : List Char) : List AnalyzedKw :=
  (sortKw (analyze_keywords
    (generate_keyword_variations (find_title_words title) category))).take 4

/-- Split on newline characters, the line decomposition that the
`re.MULTILINE` heading substitutions of `_markdown_to_html`
(`main.py:608-609`) act on. -/
def splitNl : List Char → List (List Char)
  | [] => [[]]
  | c :: rest =>
    if c = '\n' then [] :: splitNl rest
    else
      match splitNl rest with
      | [] => [[c]]
      | l :: ls => (c :: l) :: ls

/-- Rejoin lines with newline separators (inverse of `splitNl`). -/
def joinNl : List (List Char) → List Char
  | [] => []
  | [l] => l
  | l :: ls => l ++ '\n' :: joinNl ls

/-- Per-line action of `re.sub(r'^# (.+)$', r'<h1>\1</h1>', ·, re.MULTILINE)`
(`main.py:608`): a line `# rest` with nonempty `rest` becomes
`<h1>rest</h1>`. -/
def lineH1 (l : List Char) : List Char :=
  match l with
  | '#' :: ' ' :: rest =>
    if rest.isEmpty then l else s2l "<h1>" ++ rest ++ s2l "</h1>"
  | _ => l

/-- Per-line action of `re.sub(r'^## (.+)$', r'<h2>\1</h2>', ·, re.MULTILINE)`
(`main.py:609`). -/
def lineH2 (l : List Char) : List Char :=
  match l with
  | '#' :: '#' :: ' ' :: rest =>
    if rest.isEmpty then l else s2l "<h2>" ++ rest ++ s2l "</h2>"
  | _ => l

/-- The level-1 heading substitution over the whole text (`main.py:608`). -/
def h1Sub (s : List Char) : List Char := joinNl ((splitNl s).map lineH1)

/-- The level-2 heading substitution over the whole text (`main.py:609`). -/
def h2Sub (s : List Char) : List Char := joinNl ((splitNl s).map lineH2)

/-- Find the earliest closing `**` for `re.sub(r'\*\*(.+?)\*\*', ...)`
(`main.py:610`): split `s` as `inner ++ '*' :: '*' :: rest` with `inner`
nonempty, newline-free and minimal (`.` does not match a newline and `+?` is
lazy). -/
def findClose : List Char → Option (List Char × List Char)
  | [] => none
  | c :: rest =>
    if c = '\n' then none
    else
      match rest with
      | '*' :: '*' :: rest2 => some ([c], rest2)
      | _ => (findClose rest).map (fun pr => (c :: pr.1, pr.2))

/-- Whether a full bold match `**inner**` starts at the current position:
the scanner sits on a first `*`, `rest` is what follows it; a second `*`
must follow and then a lazy close per `findClose`. -/
def boldFind : List Char → Option (List Char)
  | '*' :: rest2 => (findClose rest2).map Prod.fst
  | _ => none

/-- Scanner for the bold substitution (`main.py:610`): at `skip = 0` it looks
for an opening `**`; a positive `skip` consumes characters already covered by
an emitted match.  On a match the regex engine resumes after the closing
`**` (the inner text plus three delimiter characters past the first `*`); at
a position with no match it advances one character.  The first argument is
fuel; every step consumes one character, so fuel equal to the list length
always suffices and the fuel-exhausted branch is unreachable. -/
def subBoldF : Nat → Nat → List Char → List Char
  | 0, _, s => s
  | _+1, _, [] => []
  | fuel+1, skip+1, _ :: rest => subBoldF fuel skip rest
  | fuel+1, 0, c :: rest =>
    if c = '*' then
      match boldFind rest with
      | some inner =>
        s2l "<strong>" ++ inner ++ s2l "</strong>"
          ++ subBoldF fuel (inner.length + 3) rest
      | none => c :: subBoldF fuel 0 rest
    else c :: subBoldF fuel 0 rest

/-- `re.sub(r'\*\*(.+?)\*\*', r'<strong>\1</strong>', html)`
(`main.py:610`). -/
def subBold (s : List Char) : List Char := subBoldF s.length 0 s

/-- Find the earliest closing `*` for `re.sub(r'\*(.+?)\*', ...)`
(`main.py:611`). -/
def findCloseI : List Char → Option (List Char × List Char)
  | [] => none
  | c :: rest =>
    if c = '\n' then none
    else
      match rest with
      | '*' :: rest2 => some ([c], rest2)
      | _ => (findCloseI rest).map (fun pr => (c :: pr.1, pr.2))

/-- Scanner for the italic substitution (`main.py:611`), same protocol as
`subBoldGo`. -/
def subItalicGo : Nat → List Char → List Char
  | _, [] => []
  | skip+1, _ :: rest => subItalicGo skip rest
  | 0, c :: rest =>
    if c = '*' then
      match findCloseI rest with
      | some (inner, _) =>
        s2l "<em>" ++ inner ++ s2l "</em>" ++ subItalicGo (inner.length + 1) rest
      | none => '*' :: subItalicGo 0 rest
    else c :: subItalicGo 0 rest

/-- `re.sub(r'\*(.+?)\*', r'<em>\1</em>', html)` (`main.py:611`). -/
def subItalic (s : List Char) : List Char := subItalicGo 0 s

/-- Python `str.replace(old, new)` scanner: replace every occurrence of
`old`, left to right, resuming after each replacement; a positive `skip`
consumes characters covered by an emitted replacement. -/
def rep (old new : List Char) : Nat → List Char → List Char
  | _, [] => []
  | skip+1, _ :: rest => rep old new skip rest
  | 0, c :: rest =>
    if isPref old (c :: rest) then new ++ rep old new (old.length - 1) rest
    else c :: rep old new 0 rest

/-- Python `str.replace(old, new)` for nonempty `old` (`main.py:612-615`). -/
def replaceAll (old new s : List Char) : List Char := rep old new 0 s

/-- A character that cannot interfere with the markdown constructs the
renderer handles: not a heading marker, not an emphasis delimiter, not a tag
opener, not a newline. -/
def cleanChar (c : Char) : Bool :=
  !(c == '#') && !(c == '*') && !(c == '<') && !(c == '\n')

/-- A string of clean characters (see `cleanChar`). -/
def cleanStr (l : List Char) : Bool := l.all cleanChar

/-- `_markdown_to_html` (`main.py:605-616`): heading substitutions, bold,
italic, paragraph wrapping on blank lines, then the four fixups that strip
paragraph markup around converted headings. -/
def markdown_to_html (s : List Char) : List Char :=
  let h := h1Sub s
  let h := h2Sub h
  let h := subBold h
  let h := subItalic h
  let h := replaceAll (s2l "\n\n") (s2l "</p><p>") h
  let h := s2l "<p>" ++ h ++ s2l "</p>"
  let h := replaceAll (s2l "<p><h1>") (s2l "<h1>") h
  let h := replaceAll (s2l "</h1></p>") (s2l "</h1>") h
  let h := replaceAll (s2l "<p><h2>") (s2l "<h2>") h
  let h := replaceAll (s2l "</h2></p>") (s2l "</h2>") h
  h

/-! ## Claim theorems -/

/-- C9: the keyword-coverage term of `_calculate_blog_seo_score` divides by
`len(keywords)` with no guard, so the score is total only for a non-empty
keyword list; for the empty list the division-by-zero branch (modelled by
`none`) is reached for every content string. -/
theorem seo_score_total_iff_keywords_nonempty :
    (∀ content, calculate_blog_seo_score content [] = none) ∧
    (∀ content keywords, keywords ≠ [] →
      (calculate_blog_seo_score content keywords).isSome = true) := by
  constructor
  · intro content; rfl
  · intro content keywords h
    simp [calculate_blog_seo_score, List.length_eq_zero, h]

/-- Witness for C9: both branches at concrete inputs. -/
theorem seo_score_total_iff_keywords_nonempty_witness :
    calculate_blog_seo_score (s2l "x") [] = none ∧
    (calculate_blog_seo_score (s2l "x") [s2l "a"]).isSome = true :=
  ⟨seo_score_total_iff_keywords_nonempty.1 (s2l "x"),
   seo_score_total_iff_keywords_nonempty.2 (s2l "x") [s2l "a"] (by decide)⟩

/-- C8: with zero generated blog posts, the report's average SEO score and
average readability divide by `len(self.blog_posts) = 0` (`main.py:682-683`)
and fail (modelled by `none`); only the words-per-post average
(`main.py:636`) is guarded by `max(·, 1)`.  This refutes the claim that the
averages short-circuit to defined defaults and evaluates the model at the
failing input (an empty post list). -/
theorem report_zero_posts_divides_by_zero :
    avg_seo_score [] = none ∧ avg_readability [] = none ∧
    avgWordsPerPost 0 0 = 0 :=
  ⟨rfl, rfl, rfl⟩

/-- C2: the selected headline and call-to-action text depend on the value of
Python `hash(product['title'])`, which CPython salts per process: the model
takes that hash value as a parameter, and two hash values that differ mod 3
yield different generated text for the same product, so the selection is not
a deterministic function of the product title, refuting reproducibility
across runs. -/
theorem template_choice_depends_on_hash_value :
    generate_headline 0 (s2l "Premium Noise Cancelling Wireless Headphones")
        (s2l "premium headphones") ≠
      generate_headline 1 (s2l "Premium Noise Cancelling Wireless Headphones")
        (s2l "premium headphones") ∧
    generate_cta 0 (s2l "Premium Noise Cancelling Wireless Headphones")
        (s2l "premium headphones") ≠
      generate_cta 1 (s2l "Premium Noise Cancelling Wireless Headphones")
        (s2l "premium headphones") := by
  constructor <;> decide

/-- C1: keyword research on a title with no four-letter word yields an empty
keyword list (`research_seo_keywords` performs no padding with the category
name), and blog generation over that empty list fails with an index error
(modelled by `none`) when the templater reads `keywords[0] .. keywords[3]`:
the degenerate case is fatal in the code, not recovered by padding. -/
theorem degenerate_keywords_fatal_not_padded :
    research_seo_keywords (s2l "Pen") (s2l "Electronics") = [] ∧
    generate_structured_content 0
      { title := s2l "Pen", price := s2l "$5.99", rating := s2l "4.0",
        reviews := s2l "10", category := s2l "Electronics",
        description := s2l "A fine pen" }
      ((research_seo_keywords (s2l "Pen") (s2l "Electronics")).map
        (fun k => k.keyword)) = none := by
  constructor <;> decide

/-- C10: for every keyword the uncapped sub-scores are bounded —
volume in `[50,95]`, difficulty in `[40,70]`, relevance in `{70,90}` — so no
`min(·,100)` cap is ever binding, and the combined score
`volume*0.4 + (100-difficulty)*0.3 + relevance*0.3` always lies in `[50,83]`
(and the 2-decimal rounding is exact on it). -/
theorem keyword_subscores_bounded (kw : List Char) :
    (50 ≤ volumeBase kw ∧ volumeBase kw ≤ 95 ∧
      estimate_search_volume kw = volumeBase kw) ∧
    (40 ≤ difficultyBase kw ∧ difficultyBase kw ≤ 70 ∧
      estimate_difficulty kw = difficultyBase kw) ∧
    (calculate_relevance kw = 70 ∨ calculate_relevance kw = 90) ∧
    (50 ≤ combinedRaw kw ∧ combinedRaw kw ≤ 83 ∧
      round2 (combinedRaw kw) = combinedRaw kw) := by
  have hv : 50 ≤ volumeBase kw ∧ volumeBase kw ≤ 95 := by
    unfold volumeBase; split_ifs <;> omega
  have hd : 40 ≤ difficultyBase kw ∧ difficultyBase kw ≤ 70 := by
    unfold difficultyBase; split_ifs <;> omega
  have hr : relevanceBase kw = 70 ∨ relevanceBase kw = 90 := by
    unfold relevanceBase; split_ifs <;> omega
  have hev : estimate_search_volume kw = volumeBase kw := by
    unfold estimate_search_volume; omega
  have hed : estimate_difficulty kw = difficultyBase kw := by
    unfold estimate_difficulty; omega
  have her : calculate_relevance kw = relevanceBase kw := by
    unfold calculate_relevance; rcases hr with h | h <;> omega
  have hv1 : (50:ℚ) ≤ (volumeBase kw : ℚ) := by exact_mod_cast hv.1
  have hv2 : (volumeBase kw : ℚ) ≤ 95 := by exact_mod_cast hv.2
  have hd1 : (40:ℚ) ≤ (difficultyBase kw : ℚ) := by exact_mod_cast hd.1
  have hd2 : (difficultyBase kw : ℚ) ≤ 70 := by exact_mod_cast hd.2
  have hcb : 50 ≤ combinedRaw kw ∧ combinedRaw kw ≤ 83 := by
    unfold combinedRaw
    rw [hev, hed, her]
    rcases hr with h | h <;> rw [h] <;> push_cast <;> constructor <;> linarith
  have hround : round2 (combinedRaw kw) = combinedRaw kw := by
    have h100 : combinedRaw kw * 100 =
        ((estimate_search_volume kw * 40 + (100 - estimate_difficulty kw) * 30
          + calculate_relevance kw * 30 : ℤ) : ℚ) := by
      unfold combinedRaw; push_cast; ring
    rw [round2, h100, round_intCast]
    linarith [h100]
  exact ⟨⟨hv.1, hv.2, hev⟩, ⟨hd.1, hd.2, hed⟩, her ▸ hr, hcb.1, hcb.2, hround⟩

/-- Every character emitted by the slug's run-replacement is a lowercase
alphanumeric or a hyphen. -/
theorem replRuns_chars (l : List Char) : ∀ b c, c ∈ replRuns b l →
    (isLowerAlnum c || c == '-') = true := by
  induction l with
  | nil => intro b c h; simp [replRuns] at h
  | cons a rest ih =>
    intro b c h
    unfold replRuns at h
    by_cases ha : isLowerAlnum a
    · simp [ha] at h
      rcases h with h | h
      · subst h; simp [ha]
      · exact ih false c h
    · simp [ha] at h
      by_cases hb : b
      · subst hb; simp at h; exact ih true c h
      · simp [hb] at h
        rcases h with h | h
        · subst h; decide
        · exact ih true c h

/-- The head surviving `dropWhile p` does not satisfy `p`. -/
theorem dropWhile_head_not (p : Char → Bool) (l : List Char) :
    ∀ c, (l.dropWhile p).head? = some c → p c = false := by
  induction l with
  | nil => intro c h; simp [List.dropWhile] at h
  | cons a rest ih =>
    intro c h
    rw [List.dropWhile_cons] at h
    by_cases ha : p a
    · simp [ha] at h; exact ih c h
    · simp [ha] at h; rw [← h]; simpa using ha

/-- Stripping trailing hyphens leaves a prefix of the
leading-hyphen-stripped list. -/
theorem stripHyphens_pref (l : List Char) :
    stripHyphens (l) <+: l.dropWhile (fun c => c == '-') := by
  unfold stripHyphens
  rw [← List.reverse_suffix]
  simp [List.dropWhile_suffix]

/-- C4 (amended): for every title the slug contains only lowercase
alphanumerics and hyphens, never starts with a hyphen, and has length at
most 60.  (The original claim also said the slug never ends with a hyphen;
that fails — see the counterexample — because the code truncates to 60
characters after stripping edge hyphens.) -/
theorem slug_amended (title : List Char) :
    ((generate_slug title).all (fun c => isLowerAlnum c || c == '-')) = true ∧
    (generate_slug title).head? ≠ some '-' ∧
    (generate_slug title).length ≤ 60 := by
  refine ⟨?_, ?_, ?_⟩
  · rw [List.all_eq_true]
    intro c hc
    have h1 : c ∈ stripHyphens (replRuns false (lowerStr title)) :=
      List.take_subset _ _ hc
    have h2 : c ∈ (replRuns false (lowerStr title)).dropWhile
        (fun c => c == '-') :=
      (stripHyphens_pref _).subset h1
    have h3 : c ∈ replRuns false (lowerStr title) :=
      (List.dropWhile_sublist _).subset h2
    exact replRuns_chars _ false c h3
  · intro h
    have h0 : (stripHyphens (replRuns false (lowerStr title))).head?
        = some '-' := by
      unfold generate_slug at h
      rcases hs : stripHyphens (replRuns false (lowerStr title))
        with _ | ⟨a, rest⟩
      · rw [hs] at h; simp at h
      · rw [hs] at h; simpa using h
    obtain ⟨t, ht⟩ := stripHyphens_pref (replRuns false (lowerStr title))
    have hd : ((replRuns false (lowerStr title)).dropWhile
        (fun c => c == '-')).head? = some '-' := by
      rw [← ht]
      rcases hs : stripHyphens (replRuns false (lowerStr title))
        with _ | ⟨a, rest⟩
      · rw [hs] at h0; simp at h0
      · rw [hs] at h0; simpa using h0
    have := dropWhile_head_not (fun c => c == '-')
      (replRuns false (lowerStr title)) '-' hd
    simp at this
  · unfold generate_slug
    exact List.length_take_le _ _

/-- C4 counterexample: a title of 59 `a`s, a space and a `b` produces a slug
of length 60 ending in a hyphen (the truncation to 60 characters happens
after edge hyphens are stripped), refuting the claim that the slug never
ends with a hyphen. -/
theorem slug_trailing_hyphen_cex :
    (generate_slug (List.replicate 59 'a' ++ [' ', 'b'])).getLast?
      = some '-' ∧
    (generate_slug (List.replicate 59 'a' ++ [' ', 'b'])).length = 60 := by
  constructor <;> decide

/-- The word-count bonus lies in `[0,20]`. -/
theorem lengthBonus_bounds (wc : Nat) :
    0 ≤ lengthBonus wc ∧ lengthBonus wc ≤ 20 := by
  unfold lengthBonus; split_ifs <;> norm_num

/-- C5 counterexample: for the empty keyword list the SEO score is not an
integer in `[0,100]` — the computation fails with a division by zero
(modelled by `none`), refuting the claim as stated for every keyword
list. -/
theorem seo_score_empty_cex :
    calculate_blog_seo_score (s2l "some content") [] = none := rfl

/-- C5 (amended): for every content string and every non-empty keyword
list, the SEO score is an integer in `[0,100]`, and it is monotonically
non-decreasing in the number of keywords found, holding the keyword total,
word count, heading presence and CTA presence fixed. -/
theorem seo_score_amended :
    (∀ content keywords s,
      calculate_blog_seo_score content keywords = some s →
      0 ≤ s ∧ s ≤ 100) ∧
    (∀ total found found' wc heading cta, 0 < total → found ≤ found' →
      found' ≤ total →
      seoScoreCore found total wc heading cta ≤
        seoScoreCore found' total wc heading cta) := by
  constructor
  · intro content keywords s h
    unfold calculate_blog_seo_score at h
    split at h
    · exact absurd h (by simp)
    · have hs : s = seoScoreCore (keywordsFound content keywords)
          keywords.length (splitWs content).length (startsHash content)
          (hasCta content) := by
        injection h with h'; exact h'.symm
      subst hs
      unfold seoScoreCore
      constructor
      · apply le_min
        · apply Int.le_floor.mpr
          push_cast
          have h1 : (0:ℚ) ≤ ((keywordsFound content keywords : ℚ) /
              (keywords.length : ℚ)) * 40 := by
            apply mul_nonneg
            · apply div_nonneg <;> positivity
            · norm_num
          have h2 := (lengthBonus_bounds (splitWs content).length).1
          have h3 : (0:ℚ) ≤ (if startsHash content then (20:ℚ) else 0) := by
            positivity
          have h4 : (0:ℚ) ≤ (if hasCta content then (20:ℚ) else 0) := by
            positivity
          linarith
        · norm_num
      · exact min_le_right _ _
  · intro total found found' wc heading cta htot hff hft
    unfold seoScoreCore
    apply min_le_min _ le_rfl
    apply Int.floor_le_floor
    have htq : (0:ℚ) < (total : ℚ) := by exact_mod_cast htot
    have hfq : (found : ℚ) ≤ (found' : ℚ) := by exact_mod_cast hff
    gcongr

/-- A concrete SEO score evaluation: one keyword found out of one, four
words, a heading and a CTA word give `40 + 0 + 20 + 20 = 80`. -/
theorem seo_score_some_value :
    calculate_blog_seo_score (s2l "# Discover headphones now")
      [s2l "headphones"] = some 80 := by
  have h1 : keywordsFound (s2l "# Discover headphones now")
      [s2l "headphones"] = 1 := by decide
  have h2 : (splitWs (s2l "# Discover headphones now")).length = 4 := by
    decide
  have h3 : startsHash (s2l "# Discover headphones now") = true := by decide
  have h4 : hasCta (s2l "# Discover headphones now") = true := by decide
  rw [calculate_blog_seo_score]
  simp only [List.length_singleton, h1, h2, h3, h4]
  rw [seoScoreCore, lengthBonus]
  norm_num

/-- Witness for C5 (amended): both parts applied at concrete inputs. -/
theorem seo_score_amended_witness :
    (0 ≤ (80:ℤ) ∧ (80:ℤ) ≤ 100) ∧
    seoScoreCore 0 1 4 true true ≤ seoScoreCore 1 1 4 true true :=
  ⟨seo_score_amended.1 (s2l "# Discover headphones now") [s2l "headphones"]
     80 seo_score_some_value,
   seo_score_amended.2 1 0 1 4 true true (by decide) (by decide) (by decide)⟩

/-- Rounding is monotone on the rationals. -/
theorem round_le_round_q {x y : ℚ} (h : x ≤ y) : round x ≤ round y := by
  rw [round_eq, round_eq]
  exact Int.floor_le_floor (by linarith)

/-- One-decimal rounding keeps a value of `[0,100]` inside `[0,100]`. -/
theorem round1_bounds {y : ℚ} (h0 : 0 ≤ y) (h100 : y ≤ 100) :
    0 ≤ round1 y ∧ round1 y ≤ 100 := by
  have hlo : (0:ℤ) ≤ round (y * 10) := by
    have := round_le_round_q (mul_nonneg h0 (by norm_num : (0:ℚ) ≤ 10))
    simpa using this
  have hhi : round (y * 10) ≤ 1000 := by
    have h' : y * 10 ≤ (1000 : ℚ) := by linarith
    have := round_le_round_q h'
    simpa using this
  constructor
  · rw [round1]
    positivity
  · rw [round1]
    rw [div_le_iff₀ (by norm_num : (0:ℚ) < 10)]
    calc ((round (y * 10) : ℤ) : ℚ) ≤ ((1000 : ℤ) : ℚ) := by exact_mod_cast hhi
    _ = 100 * 10 := by norm_num

/-- C6: the readability score always lies in `[0,100]` and is an exact
multiple of one tenth; it equals `50.0` exactly when the content has no
`.`/`!`/`?` character or no word; otherwise it equals the simplified Flesch
formula `206.835 - 1.015*(words/sentences) - 84.6*(syllables/words)` clamped
to `[0,100]` and rounded to one decimal. -/
theorem readability_props (content : List Char) :
    (0 ≤ calculate_readability content ∧ calculate_readability content ≤ 100) ∧
    ((content.count '.' + content.count '!' + content.count '?' = 0 ∨
        (splitWs content).length = 0) →
      calculate_readability content = 50) ∧
    (¬(content.count '.' + content.count '!' + content.count '?' = 0 ∨
        (splitWs content).length = 0) →
      calculate_readability content =
        round1 (max 0 (min 100 ((206835 : ℚ)/1000
          - (1015 : ℚ)/1000 * (((splitWs content).length : ℚ) /
              ((content.count '.' + content.count '!' + content.count '?' : ℕ) : ℚ))
          - (846 : ℚ)/10 * ((((splitWs content).map count_syllables).sum : ℚ) /
              ((splitWs content).length : ℚ)))))) ∧
    (∃ n : ℤ, calculate_readability content = (n : ℚ) / 10) := by
  by_cases hc : content.count '.' + content.count '!' + content.count '?' = 0 ∨
      (splitWs content).length = 0
  · have h50 : calculate_readability content = 50 := by
      unfold calculate_readability
      rw [if_pos hc]
    refine ⟨⟨by rw [h50]; norm_num, by rw [h50]; norm_num⟩,
      fun _ => h50, fun h => absurd hc h, ⟨500, by rw [h50]; norm_num⟩⟩
  · have hval : calculate_readability content =
        round1 (max 0 (min 100 ((206835 : ℚ)/1000
          - (1015 : ℚ)/1000 * (((splitWs content).length : ℚ) /
              ((content.count '.' + content.count '!' + content.count '?' : ℕ) : ℚ))
          - (846 : ℚ)/10 * ((((splitWs content).map count_syllables).sum : ℚ) /
              ((splitWs content).length : ℚ))))) := by
      unfold calculate_readability
      rw [if_neg hc]
    have hy0 : (0:ℚ) ≤ max 0 (min 100 ((206835 : ℚ)/1000
          - (1015 : ℚ)/1000 * (((splitWs content).length : ℚ) /
              ((content.count '.' + content.count '!' + content.count '?' : ℕ) : ℚ))
          - (846 : ℚ)/10 * ((((splitWs content).map count_syllables).sum : ℚ) /
              ((splitWs content).length : ℚ)))) := le_max_left _ _
    have hy100 : max 0 (min 100 ((206835 : ℚ)/1000
          - (1015 : ℚ)/1000 * (((splitWs content).length : ℚ) /
              ((content.count '.' + content.count '!' + content.count '?' : ℕ) : ℚ))
          - (846 : ℚ)/10 * ((((splitWs content).map count_syllables).sum : ℚ) /
              ((splitWs content).length : ℚ)))) ≤ 100 :=
      max_le (by norm_num) (min_le_left _ _)
    obtain ⟨hb0, hb100⟩ := round1_bounds hy0 hy100
    exact ⟨⟨hval ▸ hb0, hval ▸ hb100⟩, fun h => absurd h hc, fun _ => hval,
      ⟨round ((max 0 (min 100 ((206835 : ℚ)/1000
          - (1015 : ℚ)/1000 * (((splitWs content).length : ℚ) /
              ((content.count '.' + content.count '!' + content.count '?' : ℕ) : ℚ))
          - (846 : ℚ)/10 * ((((splitWs content).map count_syllables).sum : ℚ) /
              ((splitWs content).length : ℚ))))) * 10), hval⟩⟩

/-- Members of an insertion are the inserted element or old members. -/
theorem mem_insertKw {z x : AnalyzedKw} : ∀ {l : List AnalyzedKw},
    z ∈ insertKw l x → z = x ∨ z ∈ l := by
  intro l
  induction l with
  | nil => intro h; simp [insertKw] at h; exact Or.inl h
  | cons y ys ih =>
    intro h
    by_cases hc : y.seo_score < x.seo_score
    · simp only [insertKw, if_pos hc, List.mem_cons] at h
      rcases h with h | h | h
      · exact Or.inl h
      · exact Or.inr (by simp [h])
      · exact Or.inr (by simp [h])
    · simp only [insertKw, if_neg hc, List.mem_cons] at h
      rcases h with h | h
      · exact Or.inr (by simp [h])
      · rcases ih h with h' | h'
        · exact Or.inl h'
        · exact Or.inr (by simp [h'])

/-- Insertion preserves descending order of scores. -/
theorem insertKw_pairwise {x : AnalyzedKw} : ∀ {l : List AnalyzedKw},
    l.Pairwise (fun a b => b.seo_score ≤ a.seo_score) →
    (insertKw l x).Pairwise (fun a b => b.seo_score ≤ a.seo_score) := by
  intro l
  induction l with
  | nil => intro _; simp [insertKw]
  | cons y ys ih =>
    intro h
    rw [List.pairwise_cons] at h
    by_cases hc : y.seo_score < x.seo_score
    · rw [insertKw, if_pos hc, List.pairwise_cons]
      constructor
      · intro z hz
        rw [List.mem_cons] at hz
        rcases hz with rfl | hz
        · exact le_of_lt hc
        · exact le_trans (h.1 z hz) (le_of_lt hc)
      · rw [List.pairwise_cons]
        exact h
    · rw [insertKw, if_neg hc, List.pairwise_cons]
      constructor
      · intro z hz
        rcases mem_insertKw hz with h' | h'
        · subst h'; exact le_of_not_lt hc
        · exact h.1 z h'
      · exact ih h.2

/-- Stability of one insertion step: restricted to any fixed score `q`, the
inserted element lands at the end of the `q`-scored subsequence of a
descending-sorted list. -/
theorem filter_insertKw (q : ℚ) (x : AnalyzedKw) : ∀ (l : List AnalyzedKw),
    l.Pairwise (fun a b => b.seo_score ≤ a.seo_score) →
    (insertKw l x).filter (fun k => decide (k.seo_score = q)) =
      if x.seo_score = q then
        l.filter (fun k => decide (k.seo_score = q)) ++ [x]
      else l.filter (fun k => decide (k.seo_score = q)) := by
  intro l
  induction l with
  | nil =>
    intro _
    by_cases hx : x.seo_score = q <;> simp [insertKw, List.filter, hx]
  | cons y ys ih =>
    intro h
    rw [List.pairwise_cons] at h
    by_cases hc : y.seo_score < x.seo_score
    · rw [insertKw, if_pos hc]
      by_cases hx : x.seo_score = q
      · have hempty : (y :: ys).filter (fun k => decide (k.seo_score = q)) = [] := by
          rw [List.filter_eq_nil_iff]
          intro z hz
          have hzy : z.seo_score ≤ y.seo_score := by
            rw [List.mem_cons] at hz
            rcases hz with rfl | hz
            · exact le_refl _
            · exact h.1 z hz
          have : z.seo_score < q := by
            rw [← hx]; exact lt_of_le_of_lt hzy hc
          simp [ne_of_lt this]
        rw [if_pos hx, List.filter_cons_of_pos (by simp [hx]), hempty]
        simp
      · rw [if_neg hx, List.filter_cons_of_neg (by simp [hx])]
    · rw [insertKw, if_neg hc]
      by_cases hy : y.seo_score = q
      · rw [List.filter_cons_of_pos (by simp [hy]), List.filter_cons_of_pos (by simp [hy])]
        rw [ih h.2]
        by_cases hx : x.seo_score = q <;> simp [hx]
      · rw [List.filter_cons_of_neg (by simp [hy]), List.filter_cons_of_neg (by simp [hy])]
        exact ih h.2

/-- Stability of the full sort pass over an already-sorted accumulator. -/
theorem foldl_insertKw_filter (q : ℚ) : ∀ (l acc : List AnalyzedKw),
    acc.Pairwise (fun a b => b.seo_score ≤ a.seo_score) →
    (l.foldl insertKw acc).filter (fun k => decide (k.seo_score = q)) =
      acc.filter (fun k => decide (k.seo_score = q)) ++
        l.filter (fun k => decide (k.seo_score = q)) := by
  intro l
  induction l with
  | nil => intro acc _; simp
  | cons x rest ih =>
    intro acc hacc
    rw [List.foldl_cons]
    rw [ih (insertKw acc x) (insertKw_pairwise hacc)]
    rw [filter_insertKw q x acc hacc]
    by_cases hx : x.seo_score = q
    · rw [if_pos hx, List.filter_cons_of_pos (by simp [hx])]
      simp
    · rw [if_neg hx, List.filter_cons_of_neg (by simp [hx])]

/-- Stability of `sortKw`: for any fixed score value the sorted list keeps
the sub-sequence of elements with that score exactly in input order. -/
theorem sortKw_filter (q : ℚ) (l : List AnalyzedKw) :
    (sortKw l).filter (fun k => decide (k.seo_score = q)) =
      l.filter (fun k => decide (k.seo_score = q)) := by
  unfold sortKw
  rw [foldl_insertKw_filter q l [] (by simp)]
  simp

/-- Taking a prefix of a list keeps a prefix of any filtered
subsequence. -/
theorem take_filter_pref (p : AnalyzedKw → Bool) :
    ∀ (l : List AnalyzedKw) (n : Nat), (l.take n).filter p <+: l.filter p := by
  intro l
  induction l with
  | nil => intro n; simp
  | cons x rest ih =>
    intro n
    cases n with
    | zero => simp
    | succ m =>
      rw [List.take_succ_cons]
      by_cases hx : p x
      · rw [List.filter_cons_of_pos hx, List.filter_cons_of_pos hx]
        exact (List.cons_prefix_cons).mpr ⟨rfl, ih m⟩
      · rw [List.filter_cons_of_neg hx, List.filter_cons_of_neg hx]
        exact ih m

/-- C3: keyword ranking is stable — for any combined-score value `q`, the
entries of the selected top-4 having score `q` form a prefix of the
`q`-scored subsequence of the analyzed candidates in their original
generation order, so any two equal-scored candidates that both reach the
top 4 keep their original relative order. -/
theorem keyword_ranking_stable (title category : List Char) (q : ℚ) :
    (research_seo_keywords title category).filter
        (fun k => decide (k.seo_score = q)) <+:
      (analyze_keywords (generate_keyword_variations
        (find_title_words title) category)).filter
        (fun k => decide (k.seo_score = q)) := by
  unfold research_seo_keywords
  have h := take_filter_pref (fun k => decide (k.seo_score = q))
    (sortKw (analyze_keywords (generate_keyword_variations
      (find_title_words title) category))) 4
  rw [sortKw_filter] at h
  exact h

/-- A clean string contains no marker characters. -/
theorem cleanStr_not_mem {l : List Char} (h : cleanStr l = true) :
    '#' ∉ l ∧ '*' ∉ l ∧ '<' ∉ l ∧ '\n' ∉ l := by
  refine ⟨fun hm => ?_, fun hm => ?_, fun hm => ?_, fun hm => ?_⟩ <;>
  · have := List.all_eq_true.mp h _ hm
    simp [cleanChar] at this

/-- Cleanliness distributes over append. -/
theorem cleanStr_append {x y : List Char} :
    cleanStr (x ++ y) = (cleanStr x && cleanStr y) := by
  simp [cleanStr, List.all_append]

/-- Lowercasing preserves cleanliness. -/
theorem pyLower_clean {c : Char} (h : cleanChar c = true) :
    cleanChar (pyLower c) = true := by
  unfold pyLower
  cases hf : lowerPairs.find? (fun p => p.1 == c) with
  | none => simpa using h
  | some p =>
    have hp : p ∈ lowerPairs := List.mem_of_find?_eq_some hf
    have : ∀ p ∈ lowerPairs, cleanChar p.2 = true := by decide
    simpa using this p hp

/-- Uppercasing preserves cleanliness. -/
theorem pyUpper_clean {c : Char} (h : cleanChar c = true) :
    cleanChar (pyUpper c) = true := by
  unfold pyUpper
  cases hf : lowerPairs.find? (fun p => p.2 == c) with
  | none => simpa using h
  | some p =>
    have hp : p ∈ lowerPairs := List.mem_of_find?_eq_some hf
    have : ∀ p ∈ lowerPairs, cleanChar p.1 = true := by decide
    simpa using this p hp

/-- The title-case scanner preserves cleanliness. -/
theorem titleCaseGo_clean {l : List Char} : ∀ b, cleanStr l = true →
    cleanStr (titleCaseGo b l) = true := by
  induction l with
  | nil => intro b _; rfl
  | cons c rest ih =>
    intro b h
    simp only [cleanStr, List.all_cons, Bool.and_eq_true] at h
    obtain ⟨hc, hrest⟩ := h
    rw [titleCaseGo, cleanStr, List.all_cons]
    simp only [Bool.and_eq_true]
    refine ⟨?_, ih _ hrest⟩
    by_cases ha : c.isAlpha <;> by_cases hb : b <;>
      simp [ha, hb, pyLower_clean hc, pyUpper_clean hc, hc]

/-- Title casing preserves cleanliness. -/
theorem titleCase_clean {l : List Char} (h : cleanStr l = true) :
    cleanStr (titleCase l) = true := titleCaseGo_clean false h

/-- Lowercasing a string preserves cleanliness. -/
theorem lowerStr_clean {l : List Char} (h : cleanStr l = true) :
    cleanStr (lowerStr l) = true := by
  rw [cleanStr, List.all_eq_true] at h ⊢
  intro c hc
  rw [lowerStr, List.mem_map] at hc
  obtain ⟨d, hd, rfl⟩ := hc
  exact pyLower_clean (h d hd)

/-- Splitting on newlines never yields an empty list of lines. -/
theorem splitNl_ne_nil (s : List Char) : splitNl s ≠ [] := by
  cases s with
  | nil => simp [splitNl]
  | cons c rest =>
    rw [splitNl]
    by_cases hc : c = '\n'
    · simp [hc]
    · simp only [if_neg hc]
      cases h : splitNl rest <;> simp

/-- A newline-free string is a single line. -/
theorem splitNl_nlfree {x : List Char} (h : '\n' ∉ x) : splitNl x = [x] := by
  induction x with
  | nil => rfl
  | cons c rest ih =>
    have hc : c ≠ '\n' := fun hh => h (by simp [hh])
    have hrest : '\n' ∉ rest := fun hh => h (by simp [hh])
    rw [splitNl, if_neg hc, ih hrest]

/-- Splitting peels one newline-free line off the front. -/
theorem splitNl_append {x : List Char} (y : List Char) (h : '\n' ∉ x) :
    splitNl (x ++ '\n' :: y) = x :: splitNl y := by
  induction x with
  | nil => simp [splitNl]
  | cons c rest ih =>
    have hc : c ≠ '\n' := fun hh => h (by simp [hh])
    have hrest : '\n' ∉ rest := fun hh => h (by simp [hh])
    rw [List.cons_append, splitNl, if_neg hc, ih hrest]

/-- Joining a nonempty tail inserts one separating newline. -/
theorem joinNl_cons (a : List Char) (b : List (List Char)) (h : b ≠ []) :
    joinNl (a :: b) = a ++ '\n' :: joinNl b := by
  cases b with
  | nil => exact absurd rfl h
  | cons x xs => rfl

/-- Joining the split lines restores the string. -/
theorem joinNl_splitNl (s : List Char) : joinNl (splitNl s) = s := by
  induction s with
  | nil => rfl
  | cons c rest ih =>
    rw [splitNl]
    by_cases hc : c = '\n'
    · rw [if_pos hc, joinNl_cons _ _ (splitNl_ne_nil rest), ih, hc]
      rfl
    · rw [if_neg hc]
      cases h : splitNl rest with
      | nil => exact absurd h (splitNl_ne_nil rest)
      | cons l ls =>
        cases ls with
        | nil =>
          rw [joinNl]
          rw [h, joinNl] at ih
          rw [ih]
        | cons l2 ls2 =>
          rw [joinNl_cons _ _ (by simp)]
          rw [h, joinNl_cons _ _ (by simp)] at ih
          rw [List.cons_append, ih]

/-- Characters of any line come from the split string. -/
theorem splitNl_mem {s : List Char} : ∀ l ∈ splitNl s, ∀ c ∈ l, c ∈ s := by
  induction s with
  | nil => intro l hl c hc; simp [splitNl] at hl; subst hl; simp at hc
  | cons a rest ih =>
    intro l hl c hc
    rw [splitNl] at hl
    by_cases ha : a = '\n'
    · rw [if_pos ha] at hl
      rcases List.mem_cons.mp hl with rfl | hl
      · simp at hc
      · exact List.mem_cons_of_mem _ (ih l hl c hc)
    · rw [if_neg ha] at hl
      cases h : splitNl rest with
      | nil => exact absurd h (splitNl_ne_nil rest)
      | cons l0 ls =>
        rw [h] at hl
        rcases List.mem_cons.mp hl with rfl | hl
        · rcases List.mem_cons.mp hc with rfl | hc'
          · simp
          · exact List.mem_cons_of_mem _ (ih l0 (h ▸ List.mem_cons_self _ _) c hc')
        · exact List.mem_cons_of_mem _ (ih l (h ▸ List.mem_cons_of_mem _ hl) c hc)

/-- A hash-free line is unchanged by the `h1` substitution. -/
theorem lineH1_no_hash {l : List Char} (h : '#' ∉ l) : lineH1 l = l := by
  unfold lineH1
  split
  · rename_i rest
    exact absurd (by simp) h
  · rfl

/-- A hash-free line is unchanged by the `h2` substitution. -/
theorem lineH2_no_hash {l : List Char} (h : '#' ∉ l) : lineH2 l = l := by
  unfold lineH2
  split
  · rename_i rest
    exact absurd (by simp) h
  · rfl

/-- The `h2` pass is the identity on hash-free text. -/
theorem h2Sub_no_hash {s : List Char} (h : '#' ∉ s) : h2Sub s = s := by
  unfold h2Sub
  have : (splitNl s).map lineH2 = splitNl s := by
    rw [show splitNl s = (splitNl s).map id by simp]
    rw [List.map_map]
    apply List.map_congr_left
    intro l hl
    simp only [Function.comp, id]
    exact lineH2_no_hash (fun hc => h (splitNl_mem l (by simpa using hl) '#' hc))
  rw [this, joinNl_splitNl]


/-- The bold pass is the identity on star-free text (any fuel at least the
length). -/
theorem subBoldF_starfree : ∀ (fuel : Nat) (s : List Char), '*' ∉ s →
    s.length ≤ fuel → subBoldF fuel 0 s = s := by
  intro fuel
  induction fuel with
  | zero => intro s _ _; rfl
  | succ f ih =>
    intro s hs hlen
    cases s with
    | nil => rfl
    | cons c rest =>
      have hc : c ≠ '*' := fun hh => hs (by simp [hh])
      have hrest : '*' ∉ rest := fun hh => hs (by simp [hh])
      rw [subBoldF, if_neg hc]
      rw [ih rest hrest (by simpa using Nat.le_of_succ_le_succ hlen)]

/-- The bold substitution is the identity on star-free text. -/
theorem subBold_starfree {s : List Char} (h : '*' ∉ s) : subBold s = s :=
  subBoldF_starfree s.length s h le_rfl

/-- The italic scanner is the identity on star-free text. -/
theorem subItalicGo_starfree : ∀ (s : List Char), '*' ∉ s →
    subItalicGo 0 s = s := by
  intro s
  induction s with
  | nil => intro _; rfl
  | cons c rest ih =>
    intro hs
    have hc : c ≠ '*' := fun hh => hs (by simp [hh])
    have hrest : '*' ∉ rest := fun hh => hs (by simp [hh])
    rw [subItalicGo, if_neg hc, ih hrest]

/-- The italic substitution is the identity on star-free text. -/
theorem subItalic_starfree {s : List Char} (h : '*' ∉ s) : subItalic s = s :=
  subItalicGo_starfree s h

/-- Skipping exactly the length of a segment resumes a fresh scan after
it. -/
theorem rep_skip : ∀ (x : List Char) (old new t : List Char),
    rep old new x.length (x ++ t) = rep old new 0 t := by
  intro x
  induction x with
  | nil => intro old new t; rfl
  | cons c rest ih =>
    intro old new t
    rw [List.cons_append, List.length_cons, rep, ih]

/-- Every list is a prefix of itself extended. -/
theorem isPref_append_self : ∀ (p t : List Char), isPref p (p ++ t) = true := by
  intro p
  induction p with
  | nil => intro t; rfl
  | cons c rest ih => intro t; rw [List.cons_append, isPref]; simp [ih]

/-- A replacement fires on an occurrence of `old` at the scan position and
resumes after it. -/
theorem rep_match (old : List Char) (hne : old ≠ []) (r t : List Char) :
    rep old r 0 (old ++ t) = r ++ rep old r 0 t := by
  cases old with
  | nil => exact absurd rfl hne
  | cons o os =>
    rw [List.cons_append, rep,
      if_pos (by rw [← List.cons_append]; exact isPref_append_self _ _)]
    simp only [List.length_cons, Nat.add_sub_cancel]
    rw [rep_skip os]

/-- The scan passes unchanged over a segment free of the pattern's first
character. -/
theorem rep_skip_clean {o : Char} (os r : List Char) : ∀ (x t : List Char),
    o ∉ x → rep (o :: os) r 0 (x ++ t) = x ++ rep (o :: os) r 0 t := by
  intro x
  induction x with
  | nil => intro t _; rfl
  | cons c rest ih =>
    intro t hx
    have hc : o ≠ c := fun hh => hx (by simp [hh])
    rw [List.cons_append, rep, if_neg (by simp [isPref, hc]),
      ih t (fun hh => hx (by simp [hh]))]
    rfl

/-- A string free of the pattern's first character is unchanged. -/
theorem rep_clean_nil {o : Char} (os r : List Char) (x : List Char)
    (h : o ∉ x) : rep (o :: os) r 0 x = x := by
  have h2 := rep_skip_clean os r x [] h
  have h0 : rep (o :: os) r 0 ([] : List Char) = [] := rfl
  rw [h0, List.append_nil] at h2
  exact h2

/-- The scan passes unchanged over a segment at none of whose positions the
pattern matches. -/
theorem rep_chain (old : List Char) (r : List Char) : ∀ (x t : List Char),
    (∀ i, i < x.length → isPref old (x.drop i ++ t) = false) →
    rep old r 0 (x ++ t) = x ++ rep old r 0 t := by
  intro x
  induction x with
  | nil => intro t _; rfl
  | cons c rest ih =>
    intro t hno
    have h0 := hno 0 (by simp)
    simp only [List.drop_zero] at h0
    rw [List.cons_append, rep, if_neg (by simpa using h0)]
    rw [ih t (fun i hi => by
      simpa using hno (i+1) (by simpa using Nat.succ_lt_succ hi))]
    rfl

/-- The scan of an empty string is empty. -/
theorem rep_nil (old r : List Char) : rep old r 0 [] = [] := rfl

/-- One non-matching position emits its character unchanged. -/
theorem rep_step {o : Char} {os : List Char} (r : List Char) {c : Char}
    {t : List Char} (h : isPref (o :: os) (c :: t) = false) :
    rep (o :: os) r 0 (c :: t) = c :: rep (o :: os) r 0 t := by
  rw [rep, if_neg (by simp [h])]

/-- The blank-line pattern fires on a literal blank line. -/
theorem rep_match_nlnl (r t : List Char) :
    rep ['\n', '\n'] r 0 ('\n' :: '\n' :: t) = r ++ rep ['\n', '\n'] r 0 t := by
  have h := rep_match ['\n', '\n'] (by simp) r t
  simpa using h

/-- The paragraph stage: each blank-line separator becomes `</p><p>`,
newline-free segments pass through. -/
theorem stage_para (A I B C : List Char)
    (hA : '\n' ∉ A) (hI : '\n' ∉ I) (hB : '\n' ∉ B) (hC : '\n' ∉ C) :
    replaceAll (s2l "\n\n") (s2l "</p><p>")
      (s2l "<h1>" ++ (A ++ (s2l "</h1>" ++ '\n' :: '\n' ::
        (I ++ '\n' :: '\n' :: (B ++ '\n' :: '\n' :: C))))) =
    s2l "<h1>" ++ (A ++ (s2l "</h1>" ++ (s2l "</p><p>" ++ (I ++
      (s2l "</p><p>" ++ (B ++ (s2l "</p><p>" ++ C))))))) := by
  rw [replaceAll]
  rw [show s2l "\n\n" = ['\n', '\n'] from rfl]
  rw [show s2l "<h1>" = '<' :: 'h' :: '1' :: '>' :: [] from rfl]
  rw [show s2l "</h1>" = '<' :: '/' :: 'h' :: '1' :: '>' :: [] from rfl]
  rw [show s2l "</p><p>" = '<' :: '/' :: 'p' :: '>' :: '<' :: 'p' :: '>' :: [] from rfl]
  simp only [List.cons_append, List.nil_append, List.append_assoc]
  simp [rep_match_nlnl, rep_step, rep_skip_clean, rep_clean_nil,
    isPref, hA, hI, hB, hC]

/-- The first fixup pattern fires on a literal `<p><h1>`. -/
theorem rep_match_p1 (r t : List Char) :
    rep ['<', 'p', '>', '<', 'h', '1', '>'] r 0
      ('<' :: 'p' :: '>' :: '<' :: 'h' :: '1' :: '>' :: t) =
      r ++ rep ['<', 'p', '>', '<', 'h', '1', '>'] r 0 t := by
  have h := rep_match ['<', 'p', '>', '<', 'h', '1', '>'] (by decide) r t
  simpa using h

/-- The second fixup pattern fires on a literal `</h1></p>`. -/
theorem rep_match_p2 (r t : List Char) :
    rep ['<', '/', 'h', '1', '>', '<', '/', 'p', '>'] r 0
      ('<' :: '/' :: 'h' :: '1' :: '>' :: '<' :: '/' :: 'p' :: '>' :: t) =
      r ++ rep ['<', '/', 'h', '1', '>', '<', '/', 'p', '>'] r 0 t := by
  have h := rep_match ['<', '/', 'h', '1', '>', '<', '/', 'p', '>']
    (by decide) r t
  simpa using h

/-- First fixup: the leading `<p><h1>` collapses to `<h1>`, and no other
occurrence exists in the rendered shape. -/
theorem stage_fix1 (A I' B' C' : List Char) (i b c : Char)
    (hA : '<' ∉ A) (hI : '<' ∉ I') (hB : '<' ∉ B') (hC : '<' ∉ C')
    (hi : ('<' == i) = false) (hb : ('<' == b) = false)
    (hc : ('<' == c) = false) :
    replaceAll (s2l "<p><h1>") (s2l "<h1>")
      (s2l "<p>" ++ (s2l "<h1>" ++ (A ++ (s2l "</h1>" ++ (s2l "</p><p>" ++
        ((i :: I') ++ (s2l "</p><p>" ++ ((b :: B') ++ (s2l "</p><p>" ++
          ((c :: C') ++ s2l "</p>")))))))))) =
    s2l "<h1>" ++ (A ++ (s2l "</h1>" ++ (s2l "</p><p>" ++
      ((i :: I') ++ (s2l "</p><p>" ++ ((b :: B') ++ (s2l "</p><p>" ++
        ((c :: C') ++ s2l "</p>")))))))) := by
  rw [replaceAll]
  rw [show s2l "<p><h1>" =
    ['<', 'p', '>', '<', 'h', '1', '>'] from rfl]
  rw [show s2l "<p>" = '<' :: 'p' :: '>' :: [] from rfl]
  rw [show s2l "<h1>" = '<' :: 'h' :: '1' :: '>' :: [] from rfl]
  rw [show s2l "</h1>" = '<' :: '/' :: 'h' :: '1' :: '>' :: [] from rfl]
  rw [show s2l "</p><p>" =
    '<' :: '/' :: 'p' :: '>' :: '<' :: 'p' :: '>' :: [] from rfl]
  rw [show s2l "</p>" = '<' :: '/' :: 'p' :: '>' :: [] from rfl]
  simp only [List.cons_append, List.nil_append, List.append_assoc]
  rw [rep_match_p1]
  simp [rep_step, rep_skip_clean, rep_clean_nil, isPref, hA, hI, hB, hC,
    hi, hb, hc]

/-- Second fixup: the `</h1></p>` after the heading collapses to `</h1>`. -/
theorem stage_fix2 (A I' B' C' : List Char) (i b c : Char)
    (hA : '<' ∉ A) (hI : '<' ∉ I') (hB : '<' ∉ B') (hC : '<' ∉ C')
    (hi : ('<' == i) = false) (hb : ('<' == b) = false)
    (hc : ('<' == c) = false) :
    replaceAll (s2l "</h1></p>") (s2l "</h1>")
      (s2l "<h1>" ++ (A ++ (s2l "</h1>" ++ (s2l "</p><p>" ++
        ((i :: I') ++ (s2l "</p><p>" ++ ((b :: B') ++ (s2l "</p><p>" ++
          ((c :: C') ++ s2l "</p>"))))))))) =
    s2l "<h1>" ++ (A ++ (s2l "</h1>" ++ (s2l "<p>" ++
      ((i :: I') ++ (s2l "</p><p>" ++ ((b :: B') ++ (s2l "</p><p>" ++
        ((c :: C') ++ s2l "</p>")))))))) := by
  rw [replaceAll]
  rw [show s2l "</h1></p>" =
    ['<', '/', 'h', '1', '>', '<', '/', 'p', '>'] from rfl]
  rw [show s2l "<p>" = '<' :: 'p' :: '>' :: [] from rfl]
  rw [show s2l "<h1>" = '<' :: 'h' :: '1' :: '>' :: [] from rfl]
  rw [show s2l "</h1>" = '<' :: '/' :: 'h' :: '1' :: '>' :: [] from rfl]
  rw [show s2l "</p><p>" =
    '<' :: '/' :: 'p' :: '>' :: '<' :: 'p' :: '>' :: [] from rfl]
  rw [show s2l "</p>" = '<' :: '/' :: 'p' :: '>' :: [] from rfl]
  simp only [List.cons_append, List.nil_append, List.append_assoc]
  simp [rep_match_p2, rep_step, rep_skip_clean, rep_clean_nil, isPref,
    hA, hI, hB, hC, hi, hb, hc]

/-- Third fixup: no `<p><h2>` occurs in the rendered shape. -/
theorem stage_fix3 (A I' B' C' : List Char) (i b c : Char)
    (hA : '<' ∉ A) (hI : '<' ∉ I') (hB : '<' ∉ B') (hC : '<' ∉ C')
    (hi : ('<' == i) = false) (hb : ('<' == b) = false)
    (hc : ('<' == c) = false) :
    replaceAll (s2l "<p><h2>") (s2l "<h2>")
      (s2l "<h1>" ++ (A ++ (s2l "</h1>" ++ (s2l "<p>" ++
        ((i :: I') ++ (s2l "</p><p>" ++ ((b :: B') ++ (s2l "</p><p>" ++
          ((c :: C') ++ s2l "</p>"))))))))) =
    s2l "<h1>" ++ (A ++ (s2l "</h1>" ++ (s2l "<p>" ++
      ((i :: I') ++ (s2l "</p><p>" ++ ((b :: B') ++ (s2l "</p><p>" ++
        ((c :: C') ++ s2l "</p>")))))))) := by
  rw [replaceAll]
  rw [show s2l "<p><h2>" =
    ['<', 'p', '>', '<', 'h', '2', '>'] from rfl]
  rw [show s2l "<p>" = '<' :: 'p' :: '>' :: [] from rfl]
  rw [show s2l "<h1>" = '<' :: 'h' :: '1' :: '>' :: [] from rfl]
  rw [show s2l "</h1>" = '<' :: '/' :: 'h' :: '1' :: '>' :: [] from rfl]
  rw [show s2l "</p><p>" =
    '<' :: '/' :: 'p' :: '>' :: '<' :: 'p' :: '>' :: [] from rfl]
  rw [show s2l "</p>" = '<' :: '/' :: 'p' :: '>' :: [] from rfl]
  simp only [List.cons_append, List.nil_append, List.append_assoc]
  simp [rep_step, rep_skip_clean, rep_clean_nil, isPref,
    hA, hI, hB, hC, hi, hb, hc]

/-- Fourth fixup: no `</h2></p>` occurs in the rendered shape. -/
theorem stage_fix4 (A I' B' C' : List Char) (i b c : Char)
    (hA : '<' ∉ A) (hI : '<' ∉ I') (hB : '<' ∉ B') (hC : '<' ∉ C')
    (hi : ('<' == i) = false) (hb : ('<' == b) = false)
    (hc : ('<' == c) = false) :
    replaceAll (s2l "</h2></p>") (s2l "</h2>")
      (s2l "<h1>" ++ (A ++ (s2l "</h1>" ++ (s2l "<p>" ++
        ((i :: I') ++ (s2l "</p><p>" ++ ((b :: B') ++ (s2l "</p><p>" ++
          ((c :: C') ++ s2l "</p>"))))))))) =
    s2l "<h1>" ++ (A ++ (s2l "</h1>" ++ (s2l "<p>" ++
      ((i :: I') ++ (s2l "</p><p>" ++ ((b :: B') ++ (s2l "</p><p>" ++
        ((c :: C') ++ s2l "</p>")))))))) := by
  rw [replaceAll]
  rw [show s2l "</h2></p>" =
    ['<', '/', 'h', '2', '>', '<', '/', 'p', '>'] from rfl]
  rw [show s2l "<p>" = '<' :: 'p' :: '>' :: [] from rfl]
  rw [show s2l "<h1>" = '<' :: 'h' :: '1' :: '>' :: [] from rfl]
  rw [show s2l "</h1>" = '<' :: '/' :: 'h' :: '1' :: '>' :: [] from rfl]
  rw [show s2l "</p><p>" =
    '<' :: '/' :: 'p' :: '>' :: '<' :: 'p' :: '>' :: [] from rfl]
  rw [show s2l "</p>" = '<' :: '/' :: 'p' :: '>' :: [] from rfl]
  simp only [List.cons_append, List.nil_append, List.append_assoc]
  simp [rep_step, rep_skip_clean, rep_clean_nil, isPref,
    hA, hI, hB, hC, hi, hb, hc]

/-- Splitting at a leading newline yields an empty first line. -/
theorem splitNl_nl (t : List Char) : splitNl ('\n' :: t) = [] :: splitNl t := by
  rw [splitNl, if_pos rfl]

/-- The heading stage: the `# ` line becomes `<h1>...</h1>`; the other
blocks, being hash-free, pass through. -/
theorem stage_h1 (A I B C : List Char) (hAne : A ≠ [])
    (hnlA : '\n' ∉ A) (hnlI : '\n' ∉ I) (hnlB : '\n' ∉ B) (hnlC : '\n' ∉ C)
    (hhI : '#' ∉ I) (hhB : '#' ∉ B) (hhC : '#' ∉ C) :
    h1Sub ('#' :: ' ' :: (A ++ '\n' :: '\n' ::
        (I ++ '\n' :: '\n' :: (B ++ '\n' :: '\n' :: C)))) =
    s2l "<h1>" ++ (A ++ (s2l "</h1>" ++ '\n' :: '\n' ::
      (I ++ '\n' :: '\n' :: (B ++ '\n' :: '\n' :: C)))) := by
  have hx1 : '\n' ∉ ('#' :: ' ' :: A) := by
    intro h
    rcases List.mem_cons.mp h with h | h
    · exact absurd h (by decide)
    rcases List.mem_cons.mp h with h | h
    · exact absurd h (by decide)
    · exact hnlA h
  have e1 : splitNl ('#' :: ' ' :: (A ++ '\n' :: '\n' ::
      (I ++ '\n' :: '\n' :: (B ++ '\n' :: '\n' :: C)))) =
      ('#' :: ' ' :: A) :: [] :: I :: [] :: B :: [] :: [C] := by
    rw [show ('#' :: ' ' :: (A ++ '\n' :: '\n' ::
        (I ++ '\n' :: '\n' :: (B ++ '\n' :: '\n' :: C)))) =
      ('#' :: ' ' :: A) ++ '\n' :: ('\n' ::
        (I ++ '\n' :: '\n' :: (B ++ '\n' :: '\n' :: C))) from by simp]
    rw [splitNl_append _ hx1, splitNl_nl,
      splitNl_append _ hnlI, splitNl_nl,
      splitNl_append _ hnlB, splitNl_nl, splitNl_nlfree hnlC]
  have hAe : A.isEmpty = false := by
    cases hA' : A.isEmpty
    · rfl
    · exact absurd (List.isEmpty_iff.mp hA') hAne
  have eA : lineH1 ('#' :: ' ' :: A) = s2l "<h1>" ++ A ++ s2l "</h1>" := by
    simp [lineH1, hAe]
  have eI : lineH1 I = I := lineH1_no_hash hhI
  have eB : lineH1 B = B := lineH1_no_hash hhB
  have eC : lineH1 C = C := lineH1_no_hash hhC
  have enil : lineH1 [] = [] := rfl
  rw [h1Sub, e1]
  rw [List.map_cons, List.map_cons, List.map_cons, List.map_cons,
    List.map_cons, List.map_cons, List.map_cons, List.map_nil]
  rw [eA, eI, eB, eC, enil]
  rw [joinNl_cons _ _ (by simp), joinNl_cons _ _ (by simp),
    joinNl_cons _ _ (by simp), joinNl_cons _ _ (by simp),
    joinNl_cons _ _ (by simp), joinNl_cons _ _ (by simp)]
  rw [show joinNl [C] = C from rfl]
  simp only [List.cons_append, List.nil_append, List.append_assoc]

/-- Rendering the four-block markdown shape produced by the templater
(heading line, then three blank-line-separated clean paragraphs): the
heading is converted and unwrapped, each block becomes a paragraph. -/
theorem render_shape (A I B C : List Char)
    (hA : cleanStr A = true) (hAne : A ≠ [])
    (hI : cleanStr I = true) (hIne : I ≠ [])
    (hB : cleanStr B = true) (hBne : B ≠ [])
    (hC : cleanStr C = true) (hCne : C ≠ []) :
    markdown_to_html ('#' :: ' ' :: (A ++ '\n' :: '\n' ::
        (I ++ '\n' :: '\n' :: (B ++ '\n' :: '\n' :: C)))) =
    s2l "<h1>" ++ (A ++ (s2l "</h1>" ++ (s2l "<p>" ++
      (I ++ (s2l "</p><p>" ++ (B ++ (s2l "</p><p>" ++
        (C ++ s2l "</p>")))))))) := by
  obtain ⟨hA1, hA2, hA3, hA4⟩ := cleanStr_not_mem hA
  obtain ⟨hI1, hI2, hI3, hI4⟩ := cleanStr_not_mem hI
  obtain ⟨hB1, hB2, hB3, hB4⟩ := cleanStr_not_mem hB
  obtain ⟨hC1, hC2, hC3, hC4⟩ := cleanStr_not_mem hC
  obtain ⟨i, I', rfl⟩ : ∃ i I', I = i :: I' := by
    cases I with
    | nil => exact absurd rfl hIne
    | cons i I' => exact ⟨i, I', rfl⟩
  obtain ⟨b, B', rfl⟩ : ∃ b B', B = b :: B' := by
    cases B with
    | nil => exact absurd rfl hBne
    | cons b B' => exact ⟨b, B', rfl⟩
  obtain ⟨c, C', rfl⟩ : ∃ c C', C = c :: C' := by
    cases C with
    | nil => exact absurd rfl hCne
    | cons c C' => exact ⟨c, C', rfl⟩
  have hi : ('<' == i) = false := by
    have : ¬('<' = i) := fun h => hI3 (by rw [h]; exact List.mem_cons_self _ _)
    simpa using this
  have hb : ('<' == b) = false := by
    have : ¬('<' = b) := fun h => hB3 (by rw [h]; exact List.mem_cons_self _ _)
    simpa using this
  have hc : ('<' == c) = false := by
    have : ¬('<' = c) := fun h => hC3 (by rw [h]; exact List.mem_cons_self _ _)
    simpa using this
  have hI3' : '<' ∉ I' := fun h => hI3 (List.mem_cons_of_mem _ h)
  have hB3' : '<' ∉ B' := fun h => hB3 (List.mem_cons_of_mem _ h)
  have hC3' : '<' ∉ C' := fun h => hC3 (List.mem_cons_of_mem _ h)
  have hT1hash : '#' ∉ s2l "<h1>" ++ (A ++ (s2l "</h1>" ++ '\n' :: '\n' ::
      ((i :: I') ++ '\n' :: '\n' :: ((b :: B') ++ '\n' :: '\n' :: (c :: C'))))) := by
    have hI1s := hI1
    have hB1s := hB1
    have hC1s := hC1
    simp only [List.mem_cons, not_or] at hI1s hB1s hC1s
    simp only [s2l]
    simp [List.mem_append, List.mem_cons, hA1, hI1s, hB1s, hC1s]
  have hT1star : '*' ∉ s2l "<h1>" ++ (A ++ (s2l "</h1>" ++ '\n' :: '\n' ::
      ((i :: I') ++ '\n' :: '\n' :: ((b :: B') ++ '\n' :: '\n' :: (c :: C'))))) := by
    have hI2s := hI2
    have hB2s := hB2
    have hC2s := hC2
    simp only [List.mem_cons, not_or] at hI2s hB2s hC2s
    simp only [s2l]
    simp [List.mem_append, List.mem_cons, hA2, hI2s, hB2s, hC2s]
  rw [markdown_to_html]
  rw [stage_h1 A (i :: I') (b :: B') (c :: C') hAne hA4 hI4 hB4 hC4 hI1 hB1 hC1]
  rw [h2Sub_no_hash hT1hash]
  rw [subBold_starfree hT1star]
  rw [subItalic_starfree hT1star]
  rw [stage_para A (i :: I') (b :: B') (c :: C') hA4 hI4 hB4 hC4]
  rw [List.append_assoc]
  simp only [List.append_assoc]
  rw [stage_fix1 A I' B' C' i b c hA3 hI3' hB3' hC3' hi hb hc]
  rw [stage_fix2 A I' B' C' i b c hA3 hI3' hB3' hC3' hi hb hc]
  rw [stage_fix3 A I' B' C' i b c hA3 hI3' hB3' hC3' hi hb hc]
  rw [stage_fix4 A I' B' C' i b c hA3 hI3' hB3' hC3' hi hb hc]


/-- Every generated headline is `# ` followed by a clean nonempty tail
(whichever of the three templates the hash selects), when the title and
primary keyword are clean. -/
theorem headline_shape (hv : Nat) (t k0 : List Char)
    (ht : cleanStr t = true) (h0 : cleanStr k0 = true) :
    ∃ A, generate_headline hv t k0 = '#' :: ' ' :: A ∧
      cleanStr A = true ∧ A ≠ [] := by
  have h3 : hv % 3 = 0 ∨ hv % 3 = 1 ∨ hv % 3 = 2 := by omega
  rcases h3 with h | h | h
  · refine ⟨titleCase k0 ++ (s2l ": Why " ++ (t ++ s2l " is Taking Over")),
      ?_, ?_, ?_⟩
    · rw [generate_headline, h]
      simp only [List.getD, List.get?, Option.getD, List.append_assoc]
      rfl
    · simp only [cleanStr_append, Bool.and_eq_true]
      exact ⟨titleCase_clean h0, by decide, ht, by decide⟩
    · intro hnil
      have h2 := (List.append_eq_nil.mp hnil).2
      exact absurd (List.append_eq_nil.mp h2).1 (by decide)
  · refine ⟨t ++ (s2l " Review: The Ultimate " ++ titleCase k0), ?_, ?_, ?_⟩
    · rw [generate_headline, h]
      simp only [List.getD, List.get?, Option.getD, List.append_assoc]
      rfl
    · simp only [cleanStr_append, Bool.and_eq_true]
      exact ⟨ht, by decide, titleCase_clean h0⟩
    · intro hnil
      have h2 := (List.append_eq_nil.mp hnil).2
      exact absurd (List.append_eq_nil.mp h2).1 (by decide)
  · refine ⟨s2l "Discover the " ++
      (titleCase k0 ++ s2l " Everyone\'s Talking About"), ?_, ?_, ?_⟩
    · rw [generate_headline, h]
      simp only [List.getD, List.get?, Option.getD, List.append_assoc]
      rfl
    · simp only [cleanStr_append, Bool.and_eq_true]
      exact ⟨by decide, titleCase_clean h0, by decide⟩
    · intro hnil
      exact absurd (List.append_eq_nil.mp hnil).1 (by decide)

/-- Every generated intro paragraph is clean and nonempty when the
interpolated fields are clean. -/
theorem intro_props (hv : Nat) (p : Product) (k0 k1 : List Char)
    (ht : cleanStr p.title = true) (hr : cleanStr p.rating = true)
    (hw : cleanStr p.reviews = true) (hg : cleanStr p.category = true)
    (h0 : cleanStr k0 = true) (h1 : cleanStr k1 = true) :
    cleanStr (generate_intro hv p k0 k1) = true ∧
    generate_intro hv p k0 k1 ≠ [] := by
  have h3 : hv % 3 = 0 ∨ hv % 3 = 1 ∨ hv % 3 = 2 := by omega
  rcases h3 with h | h | h <;>
  · rw [generate_intro, h]
    simp only [List.getD, List.get?, Option.getD]
    constructor
    · simp only [cleanStr_append, Bool.and_eq_true]
      repeat' apply And.intro
      all_goals first
        | assumption
        | exact lowerStr_clean hg
        | decide
    · repeat' apply List.append_ne_nil_of_left_ne_nil
      decide

/-- The generated body paragraph is clean and nonempty when the
interpolated fields are clean. -/
theorem body_props (p : Product) (k1 k2 k3 : List Char)
    (hp : cleanStr p.price = true) (hg : cleanStr p.category = true)
    (hd : cleanStr p.description = true)
    (h1 : cleanStr k1 = true) (h2 : cleanStr k2 = true)
    (h3 : cleanStr k3 = true) :
    cleanStr (generate_body p k1 k2 k3) = true ∧
    generate_body p k1 k2 k3 ≠ [] := by
  rw [generate_body]
  constructor
  · simp only [cleanStr_append, Bool.and_eq_true]
    repeat' apply And.intro
    all_goals first
      | assumption
      | exact lowerStr_clean hg
      | decide
  · repeat' apply List.append_ne_nil_of_left_ne_nil
    decide

/-- Every generated call-to-action is clean and nonempty when the
interpolated fields are clean. -/
theorem cta_props (hv : Nat) (t k0 : List Char)
    (ht : cleanStr t = true) (h0 : cleanStr k0 = true) :
    cleanStr (generate_cta hv t k0) = true ∧ generate_cta hv t k0 ≠ [] := by
  have h3 : hv % 3 = 0 ∨ hv % 3 = 1 ∨ hv % 3 = 2 := by omega
  rcases h3 with h | h | h <;>
  · rw [generate_cta, h]
    simp only [List.getD, List.get?, Option.getD]
    constructor
    · simp only [cleanStr_append, Bool.and_eq_true]
      repeat' apply And.intro
      all_goals first
        | assumption
        | decide
    · repeat' apply List.append_ne_nil_of_left_ne_nil
      decide

/-- C7 (amended): for every hash value and every product and keyword set
whose interpolated fields contain none of `#`, `*`, `<` or newline, the
rendered HTML of the templater content is exactly the heading element
followed by three paragraph elements — the `# ` marker is consumed, no
`#` or `*` character remains anywhere in the output, and the heading is
not wrapped in paragraph markup (the fixups remove `<p><h1>` and
`</h1></p>`, and no such wrapping survives in the exact output shape).
(The original unconditional claim fails: see the counterexample, where a
`*` in the product title survives rendering as a raw delimiter.) -/
theorem markdown_roundtrip_amended (hv : Nat) (p : Product)
    (k0 k1 k2 k3 : List Char)
    (ht : cleanStr p.title = true) (hp : cleanStr p.price = true)
    (hr : cleanStr p.rating = true) (hw : cleanStr p.reviews = true)
    (hg : cleanStr p.category = true) (hd : cleanStr p.description = true)
    (hk0 : cleanStr k0 = true) (hk1 : cleanStr k1 = true)
    (hk2 : cleanStr k2 = true) (hk3 : cleanStr k3 = true) :
    markdown_to_html
        ((generate_structured_content hv p [k0, k1, k2, k3]).getD []) =
      s2l "<h1>" ++ ((generate_headline hv p.title k0).drop 2 ++
        (s2l "</h1>" ++ (s2l "<p>" ++ (generate_intro hv p k0 k1 ++
          (s2l "</p><p>" ++ (generate_body p k1 k2 k3 ++
            (s2l "</p><p>" ++ (generate_cta hv p.title k0 ++
              s2l "</p>")))))))) ∧
    '#' ∉ markdown_to_html
        ((generate_structured_content hv p [k0, k1, k2, k3]).getD []) ∧
    '*' ∉ markdown_to_html
        ((generate_structured_content hv p [k0, k1, k2, k3]).getD []) := by
  obtain ⟨A, eH, hAc, hAne⟩ := headline_shape hv p.title k0 ht hk0
  obtain ⟨hIc, hIne⟩ := intro_props hv p k0 k1 ht hr hw hg hk0 hk1
  obtain ⟨hBc, hBne⟩ := body_props p k1 k2 k3 hp hg hd hk1 hk2 hk3
  obtain ⟨hCc, hCne⟩ := cta_props hv p.title k0 ht hk0
  have edrop : (generate_headline hv p.title k0).drop 2 = A := by
    rw [eH]
    rfl
  have econtent :
      (generate_structured_content hv p [k0, k1, k2, k3]).getD [] =
      '#' :: ' ' :: (A ++ '\n' :: '\n' :: (generate_intro hv p k0 k1 ++
        '\n' :: '\n' :: (generate_body p k1 k2 k3 ++ '\n' :: '\n' ::
          generate_cta hv p.title k0))) := by
    rw [generate_structured_content]
    simp only [List.get?, Option.getD, eH, List.append_assoc,
      List.cons_append]
    rfl
  have main := render_shape A (generate_intro hv p k0 k1)
    (generate_body p k1 k2 k3) (generate_cta hv p.title k0)
    hAc hAne hIc hIne hBc hBne hCc hCne
  obtain ⟨hA1, hA2, _, _⟩ := cleanStr_not_mem hAc
  obtain ⟨hI1, hI2, _, _⟩ := cleanStr_not_mem hIc
  obtain ⟨hB1, hB2, _, _⟩ := cleanStr_not_mem hBc
  obtain ⟨hC1, hC2, _, _⟩ := cleanStr_not_mem hCc
  refine ⟨?_, ?_, ?_⟩
  · rw [edrop, econtent, main]
  · rw [econtent, main]
    simp only [s2l]
    simp [List.mem_append, List.mem_cons, hA1, hI1, hB1, hC1]
  · rw [econtent, main]
    simp only [s2l]
    simp [List.mem_append, List.mem_cons, hA2, hI2, hB2, hC2]

set_option maxRecDepth 40000 in
/-- C7 counterexample: a product title containing a lone `*` (here
`a*b`) flows through the templater into the rendered HTML unconverted, so
the output contains a raw `*` delimiter, refuting the claim as stated for
every templater-assembled content. -/
theorem markdown_roundtrip_cex :
    '*' ∈ markdown_to_html ((generate_structured_content 0
      { title := s2l "a*b", price := s2l "$1", rating := s2l "4",
        reviews := s2l "9", category := s2l "Cat", description := s2l "D" }
      [s2l "k", s2l "k", s2l "k", s2l "k"]).getD []) := by decide

/-- Witness for C7 (amended): the amended theorem applied to a concrete
clean product, with every cleanliness hypothesis discharged by `decide`. -/
theorem markdown_roundtrip_amended_witness :
    '*' ∉ markdown_to_html ((generate_structured_content 0
      { title := s2l "Pen Stand", price := s2l "$1", rating := s2l "4",
        reviews := s2l "9", category := s2l "Office",
        description := s2l "Solid." }
      [s2l "pen", s2l "stand", s2l "desk", s2l "gift"]).getD []) :=
  (markdown_roundtrip_amended 0
    { title := s2l "Pen Stand", price := s2l "$1", rating := s2l "4",
      reviews := s2l "9", category := s2l "Office",
      description := s2l "Solid." }
    (s2l "pen") (s2l "stand") (s2l "desk") (s2l "gift")
    (by decide) (by decide) (by decide) (by decide) (by decide) (by decide)
    (by decide) (by decide) (by decide) (by decide)).2.2
